import Mathlib

/-!
Verification of the Appointment and Waitlist Coordination Engine.

This file is a shallow embedding of the engine implemented in
app/appointment_store.py, app/waitlist.py and app/scheduler.py.

Modelling conventions:
- Calendar dates are natural numbers counting days from an epoch chosen to
  fall on a Monday, so the weekday of day d is d % 7 (Monday = 0, as in
  Python date.weekday()).  ISO-8601 date strings used by the source compare
  equal, and order lexicographically, exactly as the corresponding day
  numbers do, so equality tests and sorting on dates are preserved.
- Timestamps (created_at, added_at, offered_at) are natural numbers counting
  seconds; the sweep job threshold of 2 hours is 7200 seconds.
- Fresh uuid-generated identifiers are passed in as arguments; the
  reachability relation assumes they do not collide with existing ids,
  mirroring the source's reliance on uuid4 uniqueness (dict keys are unique).
- Time-of-day slots stay the strings of the source catalog; the source
  compares and sorts them as strings.
- Notification dispatch (SMS, voice calls) is external and best-effort in the
  source; only the resulting state transitions are modelled.  The reminder
  job is modelled by the list of appointments it sends a reminder for.
-/

namespace Miltenberger

/-! ## Slot catalog and roster (appointment_store.py) -/

def PROVIDER_NAMES : List String := ["Dr. Smith", "Dr. Johnson", "Dr. Patel"]

def APPOINTMENT_TYPES : List String :=
  ["New Patient", "Follow-Up", "Sick Visit / Urgent", "Annual Physical",
   "Lab Review", "Vaccination", "Telehealth"]

def SLOT_TIMES : List String :=
  ["8:00 AM", "8:30 AM", "9:00 AM", "9:30 AM",
   "10:00 AM", "10:30 AM", "11:00 AM", "11:30 AM",
   "1:00 PM", "1:30 PM", "2:00 PM", "2:30 PM",
   "3:00 PM", "3:30 PM", "4:00 PM"]

/-- The position of a slot label in the catalog; the catalog is listed in
chronological time-of-day order, so this is the chronological rank. -/
def slotIndex (t : String) : Nat := SLOT_TIMES.indexOf t

/-! ## Appointment records -/

inductive AStatus where
  | scheduled
  | cancelled
deriving DecidableEq

def statusText : AStatus → String
  | .scheduled => "scheduled"
  | .cancelled => "cancelled"

structure Appointment where
  id : String
  patient_name : String
  patient_dob : String
  patient_phone : String
  provider : String
  appointment_type : String
  date : Nat
  time : String
  notes : String
  is_new_patient : Bool
  status : AStatus
  created_at : Nat
deriving DecidableEq

/-- Membership in the set computed by the source helper
booked_slots(date_str, provider): appointment a contributes slot t. -/
def IsBookedSlot (d : Nat) (p t : String) (a : Appointment) : Prop :=
  a.date = d ∧ a.provider = p ∧ a.status = AStatus.scheduled ∧ a.time = t

instance (d : Nat) (p t : String) (a : Appointment) :
    Decidable (IsBookedSlot d p t a) := by
  unfold IsBookedSlot; infer_instance

/-- The source test `time_str in booked_slots(date_str, provider)`. -/
def slotBooked (st : List Appointment) (d : Nat) (p t : String) : Bool :=
  st.any fun a => decide (IsBookedSlot d p t a)

/-- The loop of next_business_days: starting at day d, collect the next n
weekdays (weekday < 5), advancing one day at a time. -/
def collectBusiness (d n : Nat) : List Nat :=
  if n = 0 then []
  else if d % 7 < 5 then d :: collectBusiness (d + 1) (n - 1)
  else collectBusiness (d + 1) n
termination_by (n, if d % 7 < 5 then 0 else 7 - d % 7)
decreasing_by
  · apply Prod.Lex.left; omega
  · apply Prod.Lex.right'
    · omega
    · have h : (d + 1) % 7 = (d % 7 + 1) % 7 := by omega
      split <;> omega

/-- next_business_days(n) from the source: days start at tomorrow. -/
def next_business_days (today n : Nat) : List Nat :=
  collectBusiness (today + 1) n

/-! ## Ledger operations -/

/-- schedule_appointment from appointment_store.py: re-checks the slot is
free, then creates and stores the record with status scheduled.  The result
carries either the conflict error message or the created record, together
with the new ledger. -/
def schedule_appointment (st : List Appointment)
    (appt_id patient_name patient_dob patient_phone provider
      appointment_type : String)
    (date_n : Nat) (time_str notes : String) (is_new : Bool) (now : Nat) :
    Except String Appointment × List Appointment :=
  if slotBooked st date_n provider time_str then
    (Except.error (time_str ++ " on " ++ toString date_n ++
        " is no longer available for " ++ provider ++
        ". Please choose another slot."), st)
  else
    let record : Appointment :=
      { id := appt_id, patient_name := patient_name,
        patient_dob := patient_dob, patient_phone := patient_phone,
        provider := provider, appointment_type := appointment_type,
        date := date_n, time := time_str, notes := notes,
        is_new_patient := is_new, status := AStatus.scheduled,
        created_at := now }
    (Except.ok record, st ++ [record])

/-- Case-insensitive substring test: needle appears somewhere in hay.
This is the semantics of the Python test `needle in hay` on strings. -/
def containsSub (hay needle : List Char) : Bool :=
  needle.isPrefixOf hay ||
    match hay with
    | [] => false
    | _ :: rest => containsSub rest needle

/-- The char list of a string lower-cased, the semantics of Python
str.lower() on the ASCII data this system handles. -/
def lowerChars (s : String) : List Char := s.toList.map Char.toLower

/-- The filter condition of find_appointment. -/
def FindMatch (patient_name patient_dob : String) (a : Appointment) : Prop :=
  containsSub (lowerChars a.patient_name) (lowerChars patient_name) = true
    ∧ (patient_dob = "" ∨ a.patient_dob = patient_dob)
    ∧ a.status = AStatus.scheduled

instance (n d : String) (a : Appointment) : Decidable (FindMatch n d a) := by
  unfold FindMatch; infer_instance

/-- Python string comparison: code-point lexicographic order on the
characters. -/
def charListLe : List Char → List Char → Bool
  | [], _ => true
  | _ :: _, [] => false
  | a :: as, b :: bs =>
      if a.toNat < b.toNat then true
      else if a.toNat = b.toNat then charListLe as bs
      else false

def timeLe (s t : String) : Bool := charListLe s.toList t.toList

/-- The sort key order of find_appointment: Python sorts by the pair
(date string, time string); date strings order like day numbers, time
strings order lexicographically by code point. -/
def apptLe (a b : Appointment) : Prop :=
  a.date < b.date ∨ (a.date = b.date ∧ timeLe a.time b.time = true)

instance : DecidableRel apptLe := fun a b => by
  unfold apptLe; infer_instance

/-- find_appointment from appointment_store.py.  Python's sorted is a stable
ascending sort, which insertion sort implements exactly. -/
def find_appointment (st : List Appointment)
    (patient_name : String) (patient_dob : String := "") : List Appointment :=
  List.insertionSort apptLe
    (st.filter fun a => decide (FindMatch patient_name patient_dob a))

/-- The in-place update applied by reschedule_appointment. -/
def reschedUpd (appointment_id : String) (new_date : Nat) (new_time : String)
    (a : Appointment) : Appointment :=
  if a.id = appointment_id then
    { a with
      date := new_date,
      time := new_time,
      notes := a.notes ++ " | Rescheduled to " ++ toString new_date ++ " "
        ++ new_time }
  else a

/-- reschedule_appointment from appointment_store.py. -/
def reschedule_appointment (st : List Appointment) (appointment_id : String)
    (new_date : Nat) (new_time : String) :
    Except String Appointment × List Appointment :=
  match st.find? (fun a => a.id == appointment_id) with
  | none =>
      (Except.error ("No appointment found with ID " ++ appointment_id ++ "."),
       st)
  | some appt =>
      if appt.status ≠ AStatus.scheduled then
        (Except.error ("Appointment " ++ appointment_id ++ " is already "
            ++ statusText appt.status ++ "."), st)
      else if slotBooked st new_date appt.provider new_time then
        (Except.error (new_time ++ " on " ++ toString new_date ++
            " is not available. Please choose another slot."), st)
      else
        (Except.ok (reschedUpd appointment_id new_date new_time appt),
         st.map (reschedUpd appointment_id new_date new_time))

/-! ## Waitlist registry (waitlist.py) -/

inductive WStatus where
  | waiting
  | offered
  | booked
  | removed
deriving DecidableEq

structure WaitlistEntry where
  id : String
  patient_name : String
  patient_dob : String
  patient_phone : String
  provider : Option String
  appointment_type : String
  preferred_dates : List Nat
  notes : String
  status : WStatus
  added_at : Nat
  offered_at : Option Nat
deriving DecidableEq

/-- add_to_waitlist: appends a fresh waiting entry. -/
def add_to_waitlist (wl : List WaitlistEntry)
    (wid patient_name patient_dob patient_phone appointment_type : String)
    (provider : Option String) (preferred_dates : List Nat) (notes : String)
    (now : Nat) : List WaitlistEntry :=
  wl ++ [{ id := wid, patient_name := patient_name,
           patient_dob := patient_dob, patient_phone := patient_phone,
           provider := provider, appointment_type := appointment_type,
           preferred_dates := preferred_dates, notes := notes,
           status := WStatus.waiting, added_at := now, offered_at := none }]

/-- The filter condition of find_matches: a waiting entry whose preferred
provider is unset or equal, and whose preferred dates are empty or contain
the date. -/
def MatchCond (date_n : Nat) (provider : String) (e : WaitlistEntry) : Prop :=
  e.status = WStatus.waiting
    ∧ (e.provider = none ∨ e.provider = some provider)
    ∧ (e.preferred_dates = [] ∨ date_n ∈ e.preferred_dates)

instance (d : Nat) (p : String) (e : WaitlistEntry) :
    Decidable (MatchCond d p e) := by
  unfold MatchCond; infer_instance

/-- find_matches from waitlist.py; preserves list (enrollment) order. -/
def find_matches (wl : List WaitlistEntry) (date_n : Nat) (provider : String) :
    List WaitlistEntry :=
  wl.filter fun e => decide (MatchCond date_n provider e)

/-- The update mark_offered applies to the matched entry. -/
def offerUpd (now : Nat) (e : WaitlistEntry) : WaitlistEntry :=
  { e with status := WStatus.offered, offered_at := some now }

/-- mark_offered: sets the first entry with the given id to offered and
stamps offered_at (the source loop breaks after the first match). -/
def mark_offered (wl : List WaitlistEntry) (wid : String) (now : Nat) :
    List WaitlistEntry :=
  match wl with
  | [] => []
  | e :: rest =>
      if e.id = wid then offerUpd now e :: rest
      else e :: mark_offered rest wid now

/-- mark_booked: sets the first entry with the given id to booked; it does
not touch offered_at. -/
def mark_booked (wl : List WaitlistEntry) (wid : String) : List WaitlistEntry :=
  match wl with
  | [] => []
  | e :: rest =>
      if e.id = wid then { e with status := WStatus.booked } :: rest
      else e :: mark_booked rest wid

/-- remove_from_waitlist: sets the first entry with the given id to removed,
reporting whether the id existed; it does not touch offered_at. -/
def remove_from_waitlist (wl : List WaitlistEntry) (wid : String) :
    Bool × List WaitlistEntry :=
  match wl with
  | [] => (false, [])
  | e :: rest =>
      if e.id = wid then (true, { e with status := WStatus.removed } :: rest)
      else
        let r := remove_from_waitlist rest wid
        (r.1, e :: r.2)

/-! ## Scheduler jobs (scheduler.py) -/

/-- The sweep condition on the stamp: it is present and at least 7200
seconds (2 hours) old at time now.  An absent stamp is never stale, matching
the source guard on offered_at before computing the elapsed hours. -/
def staleAt (now : Nat) : Option Nat → Prop
  | some t => t + 7200 ≤ now
  | none => False

instance (now : Nat) (o : Option Nat) : Decidable (staleAt now o) :=
  match o with
  | some t => inferInstanceAs (Decidable (t + 7200 ≤ now))
  | none => inferInstanceAs (Decidable False)

/-- The per-entry action of the stale-offer sweep at time now: an offered
entry with a stamp at least 7200 seconds (2 hours) old reverts to waiting
with the stamp cleared; anything else is untouched. -/
def resetStaleStep (now : Nat) (e : WaitlistEntry) : WaitlistEntry :=
  if e.status = WStatus.offered ∧ staleAt now e.offered_at then
    { e with status := WStatus.waiting, offered_at := none }
  else e

/-- reset_stale_waitlist_offers from scheduler.py, run at time now. -/
def reset_stale_waitlist_offers (wl : List WaitlistEntry) (now : Nat) :
    List WaitlistEntry :=
  wl.map (resetStaleStep now)

/-- The appointments the reminder SMS job sends a reminder for when run on
day today: scheduled, dated tomorrow, and with a non-empty phone number. -/
def sms_reminder_targets (st : List Appointment) (today : Nat) :
    List Appointment :=
  st.filter fun a =>
    decide (a.date = today + 1) && decide (a.status = AStatus.scheduled)
      && !(a.patient_phone = "")

/-! ## Combined system state and cancellation -/

structure SysState where
  appointments : List Appointment
  waitlist : List WaitlistEntry
deriving DecidableEq

/-- The offer loop of cancel_appointment: mark each listed id offered in
turn. -/
def offer_ids (wl : List WaitlistEntry) (ids : List String) (now : Nat) :
    List WaitlistEntry :=
  ids.foldl (fun w i => mark_offered w i now) wl

/-- The in-place update cancel_appointment applies to the appointment. -/
def cancelUpd (reason : String) (a : Appointment) : Appointment :=
  { a with
    status := AStatus.cancelled,
    notes := a.notes ++
      (if reason = "" then " | Cancelled" else " | Cancelled: " ++ reason) }

/-- cancel_appointment from appointment_store.py: sets the appointment to
cancelled, then offers the freed (date, provider) to up to 3 matching
waiting entries, in list (enrollment) order. -/
def cancel_appointment (s : SysState) (appointment_id reason : String)
    (now : Nat) : Except String Appointment × SysState :=
  match s.appointments.find? (fun a => a.id == appointment_id) with
  | none =>
      (Except.error ("No appointment found with ID " ++ appointment_id ++ "."),
       s)
  | some appt =>
      if appt.status = AStatus.cancelled then
        (Except.error "This appointment is already cancelled.", s)
      else
        let upd := fun a =>
          if a.id = appointment_id then cancelUpd reason a else a
        let ids :=
          ((find_matches s.waitlist appt.date appt.provider).take 3).map
            (fun e => e.id)
        (Except.ok (cancelUpd reason appt),
         { appointments := s.appointments.map upd,
           waitlist := offer_ids s.waitlist ids now : SysState })

/-! ## Availability (get_available_slots) -/

structure ProviderSlots where
  provider : String
  times : List String
deriving DecidableEq

structure Availability where
  available : List (Nat × List ProviderSlots)
  providers : List String
  appointment_types : List String
deriving DecidableEq

/-- The free slots of a (day, provider) pair: the catalog minus the slots
held by a scheduled appointment. -/
def freeSlots (st : List Appointment) (day : Nat) (prov : String) :
    List String :=
  SLOT_TIMES.filter fun t => !slotBooked st day prov t

/-- The candidate providers of get_available_slots: the explicit one, or
the full roster. -/
def providersToCheck : Option String → List String
  | some p => [p]
  | none => PROVIDER_NAMES

/-- The candidate days of get_available_slots: the explicit date, or the
next 5 business days. -/
def daysToCheck (today : Nat) : Option Nat → List Nat
  | some d => [d]
  | none => next_business_days today 5

/-- The per-provider entry of the inner loop of get_available_slots: the
free slots of the (day, provider) pair, capped at the 6 earliest, or nothing
when none are free. -/
def provEntry (st : List Appointment) (day : Nat) (prov : String) :
    Option ProviderSlots :=
  let free := freeSlots st day prov
  if free = [] then none
  else some { provider := prov, times := free.take 6 }

/-- The per-day row of the outer loop of get_available_slots: the per-
provider entries of the candidate providers, or nothing when no provider has
availability that day. -/
def dayRow (st : List Appointment) (pv : Option String) (day : Nat) :
    Option (Nat × List ProviderSlots) :=
  let day_slots := (providersToCheck pv).filterMap (provEntry st day)
  if day_slots = [] then none else some (day, day_slots)

/-- get_available_slots from appointment_store.py. -/
def get_available_slots (st : List Appointment) (today : Nat)
    (requested_date : Option Nat) (provider : Option String) : Availability :=
  { available :=
      (daysToCheck today requested_date).filterMap (dayRow st provider),
    providers := PROVIDER_NAMES,
    appointment_types := APPOINTMENT_TYPES }

/-! ## Reachability -/

/-- States reachable through the public operations of the engine, starting
from the empty ledger and registry.  Identifier arguments of the creating
operations are uuid-generated in the source and assumed fresh. -/
inductive Reachable : SysState → Prop where
  | init : Reachable { appointments := [], waitlist := [] }
  | book {s} (appt_id patient_name patient_dob patient_phone provider
        appointment_type : String) (date_n : Nat) (time_str notes : String)
      (is_new : Bool) (now : Nat) :
      Reachable s → (∀ a ∈ s.appointments, a.id ≠ appt_id) →
      Reachable
        { appointments :=
            (schedule_appointment s.appointments appt_id patient_name
              patient_dob patient_phone provider appointment_type date_n
              time_str notes is_new now).2,
          waitlist := s.waitlist }
  | resched {s} (appointment_id : String) (new_date : Nat)
      (new_time : String) :
      Reachable s →
      Reachable
        { appointments :=
            (reschedule_appointment s.appointments appointment_id new_date
              new_time).2,
          waitlist := s.waitlist }
  | cancel {s} (appointment_id reason : String) (now : Nat) :
      Reachable s →
      Reachable (cancel_appointment s appointment_id reason now).2
  | enroll {s} (wid patient_name patient_dob patient_phone
        appointment_type : String) (provider : Option String)
      (preferred_dates : List Nat) (notes : String) (now : Nat) :
      Reachable s → (∀ e ∈ s.waitlist, e.id ≠ wid) →
      Reachable
        { appointments := s.appointments,
          waitlist := add_to_waitlist s.waitlist wid patient_name patient_dob
            patient_phone appointment_type provider preferred_dates notes now }
  | offer {s} (wid : String) (now : Nat) :
      Reachable s →
      Reachable
        { appointments := s.appointments,
          waitlist := mark_offered s.waitlist wid now }
  | bookEntry {s} (wid : String) :
      Reachable s →
      Reachable
        { appointments := s.appointments,
          waitlist := mark_booked s.waitlist wid }
  | removeEntry {s} (wid : String) :
      Reachable s →
      Reachable
        { appointments := s.appointments,
          waitlist := (remove_from_waitlist s.waitlist wid).2 }
  | sweep {s} (now : Nat) :
      Reachable s →
      Reachable
        { appointments := s.appointments,
          waitlist := reset_stale_waitlist_offers s.waitlist now }

/-! ## Sample data for concrete evaluations -/

def sampleAppt : Appointment :=
  { id := "A1B2C3D4", patient_name := "Jane Roe", patient_dob := "1980-04-02",
    patient_phone := "+15551234567", provider := "Dr. Smith",
    appointment_type := "Follow-Up", date := 19724, time := "9:00 AM",
    notes := "", is_new_patient := false, status := AStatus.scheduled,
    created_at := 1700000000 }

def sampleOffered : WaitlistEntry :=
  { id := "W1A2B3C4", patient_name := "Sam Lee", patient_dob := "1975-09-13",
    patient_phone := "+15557654321", provider := none,
    appointment_type := "Sick Visit / Urgent", preferred_dates := [],
    notes := "", status := WStatus.offered, added_at := 900,
    offered_at := some 1000 }

def sampleBooked : WaitlistEntry :=
  { sampleOffered with id := "W9Z8Y7X6", status := WStatus.booked }

def samplePhoneless : Appointment :=
  { sampleAppt with id := "F0E1D2C3", patient_phone := "", date := 101 }

/-! ## Claim C3: booking an occupied slot -/

/-- Claim C3: for every ledger and booking request whose (date, provider,
slot) triple is already held by a scheduled appointment, schedule_appointment
returns the conflict error and leaves the ledger (all records and fields)
unchanged. -/
theorem booking_conflict_preserves_ledger (st : List Appointment)
    (appt_id patient_name patient_dob patient_phone provider
      appointment_type : String)
    (date_n : Nat) (time_str notes : String) (is_new : Bool) (now : Nat)
    (a : Appointment) (ha : a ∈ st)
    (hb : IsBookedSlot date_n provider time_str a) :
    ∃ msg, schedule_appointment st appt_id patient_name patient_dob
      patient_phone provider appointment_type date_n time_str notes is_new
      now = (Except.error msg, st) := by
  have hbk : slotBooked st date_n provider time_str = true := by
    unfold slotBooked
    rw [List.any_eq_true]
    exact ⟨a, ha, decide_eq_true hb⟩
  unfold schedule_appointment
  rw [if_pos hbk]
  exact ⟨_, rfl⟩

/-- Witness for C3 at a concrete ledger: the 9:00 AM slot of Dr. Smith on
day 19724 is taken by sampleAppt, so a second booking of it fails and the
ledger is unchanged. -/
theorem booking_conflict_preserves_ledger_witness :
    sampleAppt ∈ [sampleAppt] ∧
    IsBookedSlot 19724 "Dr. Smith" "9:00 AM" sampleAppt ∧
    ∃ msg, schedule_appointment [sampleAppt] "E5F6A7B8" "John Doe"
      "1990-01-01" "+15550000000" "Dr. Smith" "New Patient" 19724 "9:00 AM"
      "" true 1700000500 = (Except.error msg, [sampleAppt]) :=
  ⟨by decide, by decide,
   booking_conflict_preserves_ledger [sampleAppt] "E5F6A7B8" "John Doe"
     "1990-01-01" "+15550000000" "Dr. Smith" "New Patient" 19724 "9:00 AM"
     "" true 1700000500 sampleAppt (by decide) (by decide)⟩

/-! ## Claim C4: the stale-offer sweep -/

/-- Claim C4: the sweep is a pointwise pass over the registry; an offered
entry whose stamp is at least 7200 seconds (2 hours) old at run time reverts
to waiting with offered_at cleared, and an offered entry strictly younger
than 2 hours is left unchanged. -/
theorem stale_offer_sweep_spec (wl : List WaitlistEntry) (now : Nat) :
    reset_stale_waitlist_offers wl now = wl.map (resetStaleStep now) ∧
    ∀ e : WaitlistEntry, ∀ t : Nat, e.status = WStatus.offered →
      e.offered_at = some t →
      (t + 7200 ≤ now →
        resetStaleStep now e =
          { e with status := WStatus.waiting, offered_at := none }) ∧
      (now < t + 7200 → resetStaleStep now e = e) := by
  refine ⟨rfl, ?_⟩
  intro e t hs ht
  constructor
  · intro hn
    have hc : staleAt now e.offered_at := by
      rw [ht]
      exact hn
    unfold resetStaleStep
    rw [if_pos ⟨hs, hc⟩]
  · intro hn
    have hc : ¬(e.status = WStatus.offered ∧ staleAt now e.offered_at) := by
      rintro ⟨-, h2⟩
      rw [ht] at h2
      have h2' : t + 7200 ≤ now := h2
      omega
    unfold resetStaleStep
    rw [if_neg hc]

/-- Witness for C4: a concrete offered entry stamped at second 1000 is
reverted by a sweep at second 8200 (exactly 2 hours later) and untouched by
a sweep at second 8140 (1 hour 59 minutes later). -/
theorem stale_offer_sweep_spec_witness :
    sampleOffered.status = WStatus.offered ∧
    sampleOffered.offered_at = some 1000 ∧
    resetStaleStep 8200 sampleOffered =
      { sampleOffered with status := WStatus.waiting, offered_at := none } ∧
    resetStaleStep 8140 sampleOffered = sampleOffered :=
  ⟨by decide, by decide,
   ((stale_offer_sweep_spec [sampleOffered] 8200).2 sampleOffered 1000
     (by decide) (by decide)).1 (by decide),
   ((stale_offer_sweep_spec [sampleOffered] 8140).2 sampleOffered 1000
     (by decide) (by decide)).2 (by decide)⟩

/-! ## Claim C10: the reminder SMS job -/

/-- Claim C10 counterexample: a scheduled appointment dated exactly tomorrow
whose phone number is empty receives no reminder, although the claim
requires a reminder for every scheduled appointment dated tomorrow. -/
theorem reminder_skips_phoneless :
    samplePhoneless.status = AStatus.scheduled ∧
    samplePhoneless.date = 100 + 1 ∧
    sms_reminder_targets [samplePhoneless] 100 = [] := by
  decide

/-- Claim C10 (amended): a run of the reminder SMS job on day today sends a
reminder exactly for the appointments that are scheduled, dated tomorrow,
and carry a non-empty phone number. -/
theorem reminder_targets_iff (st : List Appointment) (today : Nat)
    (a : Appointment) :
    a ∈ sms_reminder_targets st today ↔
      a ∈ st ∧ a.date = today + 1 ∧ a.status = AStatus.scheduled ∧
        a.patient_phone ≠ "" := by
  unfold sms_reminder_targets
  rw [List.mem_filter]
  simp [and_assoc]

/-! ## Claim C8: terminality of booked and removed -/

/-- Claim C8 counterexample: mark_offered invoked with the id of a booked
entry sets its status to offered, so booked is not terminal under the
registry operations. -/
theorem booked_not_terminal :
    sampleBooked.status = WStatus.booked ∧
    (mark_offered [sampleBooked] "W9Z8Y7X6" 900).map (fun e => e.status)
      = [WStatus.offered] := by
  decide

/-- Claim C8 (amended): the stale-offer sweep never changes a booked or
removed entry, but mark_offered, mark_booked and remove_from_waitlist set
the status of the entry with the given id unconditionally, so booked and
removed are not enforced as terminal by those operations. -/
theorem terminal_only_under_sweep (now : Nat) (e : WaitlistEntry)
    (rest : List WaitlistEntry)
    (h : e.status = WStatus.booked ∨ e.status = WStatus.removed) :
    resetStaleStep now e = e ∧
    mark_offered (e :: rest) e.id now = offerUpd now e :: rest ∧
    mark_booked (e :: rest) e.id = { e with status := WStatus.booked } :: rest ∧
    remove_from_waitlist (e :: rest) e.id =
      (true, { e with status := WStatus.removed } :: rest) := by
  refine ⟨?_, ?_, ?_, ?_⟩
  · have hc : ¬(e.status = WStatus.offered ∧ staleAt now e.offered_at) := by
      rintro ⟨h1, -⟩
      rcases h with h | h <;> (rw [h] at h1; simp at h1)
    unfold resetStaleStep
    rw [if_neg hc]
  · unfold mark_offered
    rw [if_pos rfl]
  · unfold mark_booked
    rw [if_pos rfl]
  · unfold remove_from_waitlist
    rw [if_pos rfl]

/-- Witness for the amended C8: the sweep at a far-future instant leaves the
concrete booked entry untouched even though its offer stamp is ancient,
while the id-targeted operations overwrite its status. -/
theorem terminal_only_under_sweep_witness :
    (sampleBooked.status = WStatus.booked ∨
      sampleBooked.status = WStatus.removed) ∧
    (resetStaleStep 999999999 sampleBooked = sampleBooked ∧
     mark_offered [sampleBooked] sampleBooked.id 999999999 =
       [offerUpd 999999999 sampleBooked] ∧
     mark_booked [sampleBooked] sampleBooked.id =
       [{ sampleBooked with status := WStatus.booked }] ∧
     remove_from_waitlist [sampleBooked] sampleBooked.id =
       (true, [{ sampleBooked with status := WStatus.removed }])) := by
  refine ⟨Or.inl (by decide), ?_⟩
  have h := terminal_only_under_sweep 999999999 sampleBooked []
    (Or.inl (by decide))
  exact ⟨h.1, h.2.1, h.2.2.1, h.2.2.2⟩

/-! ## Claim C5: reschedule conflicts -/

def sampleAppt2 : Appointment :=
  { sampleAppt with
    id := "B2C3D4E5",
    time := "9:30 AM",
    patient_name := "Max Poe" }

/-- Claim C5 counterexample: sampleAppt is scheduled at (19724, 9:00 AM),
yet rescheduling it to its own current slot returns the conflict error and
leaves the ledger unchanged instead of succeeding as an idempotent no-op:
the slot check counts the appointment itself among the booked slots. -/
theorem self_reschedule_rejected :
    sampleAppt.status = AStatus.scheduled ∧
    (∃ msg, reschedule_appointment [sampleAppt] "A1B2C3D4" sampleAppt.date
      sampleAppt.time = (Except.error msg, [sampleAppt])) :=
  ⟨by decide, ⟨_, by rfl⟩⟩

/-- Claim C5 (amended): for a scheduled appointment, rescheduling to any
(date, slot) pair held by a scheduled appointment of its provider returns a
Conflict error and leaves the ledger unchanged; because the conflict check
also counts the appointment itself, this covers its own current slot, so a
self-reschedule is rejected rather than being an idempotent no-op. -/
theorem reschedule_conflict_spec (st : List Appointment)
    (aid : String) (a : Appointment)
    (hfind : st.find? (fun x => x.id == aid) = some a)
    (hs : a.status = AStatus.scheduled) :
    (∀ new_date new_time,
      slotBooked st new_date a.provider new_time = true →
      ∃ msg, reschedule_appointment st aid new_date new_time =
        (Except.error msg, st)) ∧
    (∃ msg, reschedule_appointment st aid a.date a.time =
      (Except.error msg, st)) := by
  have hmem : a ∈ st := List.mem_of_find?_eq_some hfind
  have part1 : ∀ nd nt, slotBooked st nd a.provider nt = true →
      ∃ msg, reschedule_appointment st aid nd nt =
        (Except.error msg, st) := by
    intro nd nt hb
    simp only [reschedule_appointment, hfind]
    rw [if_neg (by simp [hs])]
    rw [if_pos hb]
    exact ⟨_, rfl⟩
  refine ⟨part1, ?_⟩
  apply part1
  unfold slotBooked
  rw [List.any_eq_true]
  exact ⟨a, hmem, decide_eq_true ⟨rfl, rfl, hs, rfl⟩⟩

/-- Witness for the amended C5 on a two-appointment ledger: moving the first
appointment onto the second appointment slot of the same provider fails, and
so does moving it onto its own slot. -/
theorem reschedule_conflict_spec_witness :
    ([sampleAppt, sampleAppt2].find? (fun x => x.id == "A1B2C3D4")
        = some sampleAppt) ∧
    sampleAppt.status = AStatus.scheduled ∧
    (∃ msg, reschedule_appointment [sampleAppt, sampleAppt2] "A1B2C3D4"
      19724 "9:30 AM" = (Except.error msg, [sampleAppt, sampleAppt2])) ∧
    (∃ msg, reschedule_appointment [sampleAppt, sampleAppt2] "A1B2C3D4"
      sampleAppt.date sampleAppt.time
        = (Except.error msg, [sampleAppt, sampleAppt2])) := by
  have h := reschedule_conflict_spec [sampleAppt, sampleAppt2] "A1B2C3D4"
    sampleAppt (by decide) (by decide)
  exact ⟨by decide, by decide, h.1 19724 "9:30 AM" (by decide), h.2⟩

/-! ## Claim C9: find_appointment -/

theorem charListLe_total : ∀ l₁ l₂ : List Char,
    charListLe l₁ l₂ = true ∨ charListLe l₂ l₁ = true := by
  intro l₁
  induction l₁ with
  | nil => intro l₂; left; rfl
  | cons a as ih =>
    intro l₂
    cases l₂ with
    | nil => right; rfl
    | cons b bs =>
      unfold charListLe
      rcases Nat.lt_trichotomy a.toNat b.toNat with h | h | h
      · left; rw [if_pos h]
      · rw [if_neg (by omega), if_pos h, if_neg (by omega), if_pos h.symm]
        exact ih bs
      · right; rw [if_pos h]

theorem charListLe_trans : ∀ l₁ l₂ l₃ : List Char,
    charListLe l₁ l₂ = true → charListLe l₂ l₃ = true →
    charListLe l₁ l₃ = true := by
  intro l₁
  induction l₁ with
  | nil => intro l₂ l₃ h12 h23; rfl
  | cons a as ih =>
    intro l₂ l₃ h12 h23
    cases l₂ with
    | nil => simp [charListLe] at h12
    | cons b bs =>
      cases l₃ with
      | nil => simp [charListLe] at h23
      | cons c cs =>
        unfold charListLe at h12 h23 ⊢
        by_cases hab : a.toNat < b.toNat
        · by_cases hbc : b.toNat < c.toNat
          · rw [if_pos (by omega)]
          · rw [if_neg hbc] at h23
            by_cases hbc2 : b.toNat = c.toNat
            · rw [if_pos (by omega)]
            · rw [if_neg hbc2] at h23
              simp at h23
        · rw [if_neg hab] at h12
          by_cases hab2 : a.toNat = b.toNat
          · rw [if_pos hab2] at h12
            by_cases hbc : b.toNat < c.toNat
            · rw [if_pos (by omega)]
            · rw [if_neg hbc] at h23
              by_cases hbc2 : b.toNat = c.toNat
              · rw [if_neg (by omega), if_pos (by omega)]
                rw [if_pos hbc2] at h23
                exact ih bs cs h12 h23
              · rw [if_neg hbc2] at h23
                simp at h23
          · rw [if_neg hab2] at h12
            simp at h12

theorem apptLe_total : ∀ a b : Appointment, apptLe a b ∨ apptLe b a := by
  intro a b
  unfold apptLe
  rcases Nat.lt_trichotomy a.date b.date with h | h | h
  · exact Or.inl (Or.inl h)
  · rcases charListLe_total a.time.toList b.time.toList with ht | ht
    · exact Or.inl (Or.inr ⟨h, ht⟩)
    · exact Or.inr (Or.inr ⟨h.symm, ht⟩)
  · exact Or.inr (Or.inl h)

instance : IsTotal Appointment apptLe := ⟨apptLe_total⟩

theorem apptLe_trans :
    ∀ a b c : Appointment, apptLe a b → apptLe b c → apptLe a c := by
  intro a b c hab hbc
  unfold apptLe at hab hbc ⊢
  rcases hab with h | ⟨he, ht⟩ <;> rcases hbc with h2 | ⟨he2, ht2⟩
  · exact Or.inl (h.trans h2)
  · exact Or.inl (he2 ▸ h)
  · exact Or.inl (he ▸ h2)
  · exact Or.inr ⟨he.trans he2,
      charListLe_trans a.time.toList b.time.toList c.time.toList ht ht2⟩

instance : IsTrans Appointment apptLe := ⟨apptLe_trans⟩

def apptJoLate : Appointment :=
  { sampleAppt with
    id := "C5D6E7F8",
    patient_name := "Jo Stone",
    time := "1:00 PM" }

def apptJoEarly : Appointment :=
  { sampleAppt with
    id := "D6E7F8A9",
    patient_name := "Jo Stone",
    time := "8:00 AM" }

/-- Claim C9 counterexample: for two matching scheduled appointments on the
same date at 8:00 AM and 1:00 PM, find_appointment returns the 1:00 PM one
first, because the slot labels compare as strings; the returned list is not
ascending by time-of-day slot. -/
theorem find_appointment_not_time_ordered :
    (find_appointment [apptJoEarly, apptJoLate] "jo" "").map (fun a => a.time)
      = ["1:00 PM", "8:00 AM"] ∧
    ¬ ((find_appointment [apptJoEarly, apptJoLate] "jo" "").Pairwise
        (fun a b => slotIndex a.time ≤ slotIndex b.time)) := by
  decide

/-- Claim C9 (amended): find_appointment returns exactly the scheduled
appointments whose name contains the query case-insensitively and whose dob
matches when one is supplied, ordered ascending by the pair (date, time
label) where the labels compare as strings — lexicographic label order,
which differs from time-of-day order. -/
theorem find_appointment_spec (st : List Appointment)
    (patient_name patient_dob : String) :
    (find_appointment st patient_name patient_dob).Perm
      (st.filter fun a => decide (FindMatch patient_name patient_dob a)) ∧
    (find_appointment st patient_name patient_dob).Sorted apptLe ∧
    (∀ a, a ∈ find_appointment st patient_name patient_dob ↔
      a ∈ st ∧ FindMatch patient_name patient_dob a) := by
  refine ⟨List.perm_insertionSort _ _, List.sorted_insertionSort _ _, ?_⟩
  intro a
  rw [find_appointment, (List.perm_insertionSort _ _).mem_iff,
    List.mem_filter, decide_eq_true_eq]

/-! ## Claim C6: available_slots -/

theorem mem_collectBusiness :
    ∀ (d n x : Nat), x ∈ collectBusiness d n → d ≤ x ∧ x % 7 < 5 := by
  intro d n
  induction d, n using collectBusiness.induct with
  | case1 d =>
    intro x hx
    rw [collectBusiness] at hx
    simp at hx
  | case2 d n hn hb ih =>
    intro x hx
    rw [collectBusiness] at hx
    rw [if_neg hn, if_pos hb] at hx
    rcases List.mem_cons.mp hx with h | h
    · subst h; exact ⟨le_refl _, hb⟩
    · have := ih x h
      exact ⟨by omega, this.2⟩
  | case3 d n hn hb ih =>
    intro x hx
    rw [collectBusiness] at hx
    rw [if_neg hn, if_neg hb] at hx
    have := ih x hx
    exact ⟨by omega, this.2⟩

/-- Claim C6: get_available_slots computes, for each candidate day (the
explicit date, or the next 5 business days skipping weekends) and each
candidate provider (the explicit one, or the full roster), the free slots as
the catalog minus the slots held by a scheduled appointment for that pair,
returns at most the 6 earliest free slots per provider, omits a pair with no
free slot and a day with no available provider, and never returns a slot
held by a scheduled appointment at that exact (day, provider, slot). -/
theorem available_slots_spec (st : List Appointment) (today : Nat)
    (requested_date : Option Nat) (provider : Option String) :
    (∀ day ps, (day, ps) ∈
        (get_available_slots st today requested_date provider).available →
      day ∈ daysToCheck today requested_date ∧ ps ≠ [] ∧
      ∀ pr ts, ProviderSlots.mk pr ts ∈ ps →
        pr ∈ providersToCheck provider ∧
        ts = (freeSlots st day pr).take 6 ∧ ts ≠ [] ∧
        ∀ t ∈ ts, slotBooked st day pr t = false) ∧
    (∀ day ∈ daysToCheck today requested_date,
      ∀ pr ∈ providersToCheck provider, freeSlots st day pr ≠ [] →
      ∃ ps, (day, ps) ∈
          (get_available_slots st today requested_date provider).available ∧
        ProviderSlots.mk pr ((freeSlots st day pr).take 6) ∈ ps) ∧
    (requested_date = none →
      ∀ d ∈ daysToCheck today requested_date, today < d ∧ d % 7 < 5) := by
  refine ⟨?_, ?_, ?_⟩
  · intro day ps hmem
    simp only [get_available_slots] at hmem
    rw [List.mem_filterMap] at hmem
    obtain ⟨d0, hd0, hrow⟩ := hmem
    unfold dayRow at hrow
    by_cases hempty :
        ((providersToCheck provider).filterMap (provEntry st d0)) = []
    · simp only [hempty] at hrow
      simp at hrow
    · simp only at hrow
      rw [if_neg hempty] at hrow
      injection hrow with hrow
      rw [Prod.mk.injEq] at hrow
      obtain ⟨h1, h2⟩ := hrow
      subst h1
      subst h2
      refine ⟨hd0, hempty, ?_⟩
      intro pr ts hin
      rw [List.mem_filterMap] at hin
      obtain ⟨p0, hp0, hentry⟩ := hin
      unfold provEntry at hentry
      by_cases hfree : freeSlots st d0 p0 = []
      · simp only at hentry
        rw [if_pos hfree] at hentry
        cases hentry
      · simp only at hentry
        rw [if_neg hfree] at hentry
        injection hentry with hentry
        rw [ProviderSlots.mk.injEq] at hentry
        obtain ⟨h1, h2⟩ := hentry
        subst h1
        subst h2
        refine ⟨hp0, rfl, ?_, ?_⟩
        · intro hnil
          rw [List.take_eq_nil_iff] at hnil
          rcases hnil with h | h
          · exact absurd h (by decide)
          · exact hfree h
        · intro t ht
          have ht2 : t ∈ freeSlots st d0 p0 := List.mem_of_mem_take ht
          unfold freeSlots at ht2
          rw [List.mem_filter] at ht2
          have h3 := ht2.2
          simp at h3
          exact h3
  · intro day hday pr hpr hfree
    have hentry : provEntry st day pr =
        some (ProviderSlots.mk pr ((freeSlots st day pr).take 6)) := by
      unfold provEntry
      simp only
      rw [if_neg hfree]
    refine ⟨(providersToCheck provider).filterMap (provEntry st day), ?_, ?_⟩
    · simp only [get_available_slots]
      rw [List.mem_filterMap]
      refine ⟨day, hday, ?_⟩
      unfold dayRow
      simp only
      rw [if_neg ?_]
      intro hnil
      have hm : ProviderSlots.mk pr ((freeSlots st day pr).take 6) ∈
          (providersToCheck provider).filterMap (provEntry st day) :=
        List.mem_filterMap.mpr ⟨pr, hpr, hentry⟩
      rw [hnil] at hm
      cases hm
    · exact List.mem_filterMap.mpr ⟨pr, hpr, hentry⟩
  · intro hrd d hd
    rw [hrd] at hd
    have hd2 : d ∈ collectBusiness (today + 1) 5 := hd
    have h := mem_collectBusiness (today + 1) 5 d hd2
    exact ⟨by omega, h.2⟩

/-! ## Claim C7: the offered_at stamp -/

/-- The stamp invariant that actually holds: offered entries carry a stamp,
waiting entries do not.  Terminal entries are unconstrained. -/
def WlInv (wl : List WaitlistEntry) : Prop :=
  ∀ e ∈ wl, (e.status = WStatus.offered → e.offered_at ≠ none) ∧
    (e.status = WStatus.waiting → e.offered_at = none)

theorem wlInv_add : ∀ wl, WlInv wl →
    ∀ wid patient_name patient_dob patient_phone appointment_type provider
      preferred_dates notes now,
    WlInv (add_to_waitlist wl wid patient_name patient_dob patient_phone
      appointment_type provider preferred_dates notes now) := by
  intro wl h wid n d p t pv pd no now e he
  unfold add_to_waitlist at he
  rw [List.mem_append] at he
  rcases he with he | he
  · exact h e he
  · rw [List.mem_singleton] at he
    subst he
    exact ⟨by intro hx; simp at hx, by intro _; rfl⟩

theorem wlInv_mark_offered : ∀ wl, WlInv wl → ∀ wid now,
    WlInv (mark_offered wl wid now) := by
  intro wl
  induction wl with
  | nil => intro h wid now; exact h
  | cons e rest ih =>
    intro h wid now
    have he := h e (List.mem_cons_self _ _)
    have hrest : WlInv rest := fun x hx => h x (List.mem_cons_of_mem _ hx)
    unfold mark_offered
    by_cases hid : e.id = wid
    · rw [if_pos hid]
      intro x hx
      rcases List.mem_cons.mp hx with hx | hx
      · subst hx
        refine ⟨fun _ => ?_, fun hw => ?_⟩
        · simp [offerUpd]
        · simp [offerUpd] at hw
      · exact hrest x hx
    · rw [if_neg hid]
      intro x hx
      rcases List.mem_cons.mp hx with hx | hx
      · subst hx; exact he
      · exact ih hrest wid now x hx

theorem wlInv_mark_booked : ∀ wl, WlInv wl → ∀ wid,
    WlInv (mark_booked wl wid) := by
  intro wl
  induction wl with
  | nil => intro h wid; exact h
  | cons e rest ih =>
    intro h wid
    have he := h e (List.mem_cons_self _ _)
    have hrest : WlInv rest := fun x hx => h x (List.mem_cons_of_mem _ hx)
    unfold mark_booked
    by_cases hid : e.id = wid
    · rw [if_pos hid]
      intro x hx
      rcases List.mem_cons.mp hx with hx | hx
      · subst hx
        refine ⟨fun hx2 => ?_, fun hx2 => ?_⟩ <;> simp at hx2
      · exact hrest x hx
    · rw [if_neg hid]
      intro x hx
      rcases List.mem_cons.mp hx with hx | hx
      · subst hx; exact he
      · exact ih hrest wid x hx

theorem wlInv_remove : ∀ wl, WlInv wl → ∀ wid,
    WlInv (remove_from_waitlist wl wid).2 := by
  intro wl
  induction wl with
  | nil => intro h wid; exact h
  | cons e rest ih =>
    intro h wid
    have he := h e (List.mem_cons_self _ _)
    have hrest : WlInv rest := fun x hx => h x (List.mem_cons_of_mem _ hx)
    unfold remove_from_waitlist
    by_cases hid : e.id = wid
    · rw [if_pos hid]
      intro x hx
      rcases List.mem_cons.mp hx with hx | hx
      · subst hx
        refine ⟨fun hx2 => ?_, fun hx2 => ?_⟩ <;> simp at hx2
      · exact hrest x hx
    · rw [if_neg hid]
      intro x hx
      rcases List.mem_cons.mp hx with hx | hx
      · subst hx; exact he
      · exact ih hrest wid x hx

theorem wlInv_sweep : ∀ wl, WlInv wl → ∀ now,
    WlInv (reset_stale_waitlist_offers wl now) := by
  intro wl h now e he
  unfold reset_stale_waitlist_offers at he
  rw [List.mem_map] at he
  obtain ⟨e0, he0, rfl⟩ := he
  have h0 := h e0 he0
  unfold resetStaleStep
  by_cases hc : e0.status = WStatus.offered ∧ staleAt now e0.offered_at
  · rw [if_pos hc]
    refine ⟨fun hx => ?_, fun _ => rfl⟩
    simp at hx
  · rw [if_neg hc]
    exact h0

theorem wlInv_offer_ids : ∀ ids wl, WlInv wl → ∀ now,
    WlInv (offer_ids wl ids now) := by
  intro ids
  induction ids with
  | nil => intro wl h now; exact h
  | cons i is ih =>
    intro wl h now
    unfold offer_ids
    rw [List.foldl_cons]
    exact ih (mark_offered wl i now) (wlInv_mark_offered wl h i now) now

theorem reachable_wlInv : ∀ {s : SysState}, Reachable s →
    WlInv s.waitlist := by
  intro s h
  induction h with
  | init => intro e he; cases he
  | book _ _ _ _ _ _ _ _ _ _ _ _ _ ih => exact ih
  | resched _ _ _ _ ih => exact ih
  | cancel aid reason now _ ih =>
    rename_i s2 _
    cases hf : s2.appointments.find? (fun a => a.id == aid) with
    | none => simp only [cancel_appointment, hf]; exact ih
    | some appt =>
      by_cases hc : appt.status = AStatus.cancelled
      · simp only [cancel_appointment, hf]
        rw [if_pos hc]
        exact ih
      · simp only [cancel_appointment, hf]
        rw [if_neg hc]
        exact wlInv_offer_ids _ s2.waitlist ih now
  | enroll _ _ _ _ _ _ _ _ _ _ _ ih => exact wlInv_add _ ih _ _ _ _ _ _ _ _ _
  | offer wid now _ ih => exact wlInv_mark_offered _ ih wid now
  | bookEntry wid _ ih => exact wlInv_mark_booked _ ih wid
  | removeEntry wid _ ih => exact wlInv_remove _ ih wid
  | sweep now _ ih => exact wlInv_sweep _ ih now

/-- Claim C7 (amended): in every reachable state, an entry with status
offered has offered_at populated and an entry with status waiting has
offered_at cleared; the unrestricted "populated iff offered" reading fails
because mark_booked and remove_from_waitlist do not clear the stamp of a
previously offered entry. -/
theorem offered_at_stamp_invariant {s : SysState} (h : Reachable s) :
    ∀ e ∈ s.waitlist, (e.status = WStatus.offered → e.offered_at ≠ none) ∧
      (e.status = WStatus.waiting → e.offered_at = none) :=
  reachable_wlInv h

def wlReachedA : SysState :=
  { appointments := [],
    waitlist := mark_offered (add_to_waitlist [] "W1" "Pat Doe" "1970-01-01"
      "+15550001111" "Follow-Up" none [] "" 40) "W1" 77 }

/-- The single entry of the registry of wlReachedA: enrolled at 40, offered
at 77. -/
def wlReachedAEntry : WaitlistEntry :=
  { id := "W1", patient_name := "Pat Doe", patient_dob := "1970-01-01",
    patient_phone := "+15550001111", provider := none,
    appointment_type := "Follow-Up", preferred_dates := [], notes := "",
    status := WStatus.offered, added_at := 40, offered_at := some 77 }

/-- Witness for the amended C7 at a concrete reachable state built by
enroll then mark_offered, instantiated at its single entry. -/
theorem offered_at_stamp_invariant_witness :
    (wlReachedAEntry.status = WStatus.offered →
      wlReachedAEntry.offered_at ≠ none) ∧
    (wlReachedAEntry.status = WStatus.waiting →
      wlReachedAEntry.offered_at = none) :=
  offered_at_stamp_invariant
    (Reachable.offer "W1" 77 (Reachable.enroll "W1" "Pat Doe" "1970-01-01"
      "+15550001111" "Follow-Up" none [] "" 40 Reachable.init (by simp)))
    wlReachedAEntry (by decide)

def wlReachedB : SysState :=
  { appointments := [],
    waitlist := mark_booked (mark_offered (add_to_waitlist [] "W1" "Pat Doe"
      "1970-01-01" "+15550001111" "Follow-Up" none [] "" 40) "W1" 77) "W1" }

/-- Claim C7 counterexample: the reachable state built by enroll,
mark_offered, mark_booked holds a booked entry whose offered_at is still
populated, so the stamp being populated does not imply status offered. -/
theorem offered_at_not_iff_offered :
    Reachable wlReachedB ∧
    ¬ (∀ e ∈ wlReachedB.waitlist,
        (e.offered_at ≠ none ↔ e.status = WStatus.offered)) :=
  ⟨Reachable.bookEntry "W1" (Reachable.offer "W1" 77 (Reachable.enroll "W1"
      "Pat Doe" "1970-01-01" "+15550001111" "Follow-Up" none [] "" 40
      Reachable.init (by simp))),
   by decide⟩

/-! ## Claim C2: cancellation backfills the waitlist -/

theorem map_offer_id_of_no_match : ∀ (wl : List WaitlistEntry) (wid : String)
    (now : Nat), (∀ e ∈ wl, e.id ≠ wid) →
    wl.map (fun e => if e.id = wid then offerUpd now e else e) = wl := by
  intro wl wid now h
  induction wl with
  | nil => rfl
  | cons e rest ih =>
    rw [List.map_cons]
    rw [if_neg (h e (List.mem_cons_self _ _))]
    rw [ih (fun x hx => h x (List.mem_cons_of_mem _ hx))]

theorem mark_offered_eq_map : ∀ (wl : List WaitlistEntry) (wid : String)
    (now : Nat), (wl.map (fun e => e.id)).Nodup →
    mark_offered wl wid now =
      wl.map (fun e => if e.id = wid then offerUpd now e else e) := by
  intro wl wid now
  induction wl with
  | nil => intro _; rfl
  | cons e rest ih =>
    intro hnd
    rw [List.map_cons, List.nodup_cons] at hnd
    unfold mark_offered
    by_cases hid : e.id = wid
    · rw [if_pos hid, List.map_cons, if_pos hid]
      congr 1
      symm
      apply map_offer_id_of_no_match
      intro x hx hxe
      apply hnd.1
      have hxid : x.id = e.id := by rw [hxe, hid]
      rw [← hxid]
      exact List.mem_map_of_mem _ hx
    · rw [if_neg hid, List.map_cons, if_neg hid]
      congr 1
      exact ih hnd.2

theorem offer_ids_eq_map : ∀ (ids : List String) (wl : List WaitlistEntry)
    (now : Nat), (wl.map (fun e => e.id)).Nodup →
    offer_ids wl ids now =
      wl.map (fun e => if e.id ∈ ids then offerUpd now e else e) := by
  intro ids
  induction ids with
  | nil =>
    intro wl now hnd
    unfold offer_ids
    rw [List.foldl_nil]
    simp
  | cons i is ih =>
    intro wl now hnd
    unfold offer_ids
    rw [List.foldl_cons]
    have hnd2 : ((mark_offered wl i now).map (fun e => e.id)).Nodup := by
      rw [mark_offered_eq_map wl i now hnd, List.map_map]
      have hfun : ((fun e : WaitlistEntry => e.id) ∘
          (fun e => if e.id = i then offerUpd now e else e))
          = fun e : WaitlistEntry => e.id := by
        funext e
        by_cases hid : e.id = i <;> simp [hid, offerUpd]
      rw [hfun]
      exact hnd
    have hrec := ih (mark_offered wl i now) now hnd2
    unfold offer_ids at hrec
    rw [hrec]
    rw [mark_offered_eq_map wl i now hnd, List.map_map]
    congr 1
    funext e
    by_cases h1 : e.id = i
    · by_cases h2 : e.id ∈ is <;>
        simp [Function.comp, h1, h2, offerUpd, List.mem_cons]
    · by_cases h2 : e.id ∈ is <;>
        simp [Function.comp, h1, h2, offerUpd, List.mem_cons]

/-- Claim C2: cancelling a scheduled appointment for (date D, provider P)
marks as offered — stamping offered_at with the cancellation time — exactly
the first 3 entries, in enrollment (list, FIFO) order, among the waiting
entries whose preferred provider is unset or P and whose preferred dates are
empty or contain D; every other entry, including matches beyond the first 3,
is unchanged. -/
theorem cancellation_offers_matches (s : SysState) (aid reason : String)
    (now : Nat) (a : Appointment)
    (hnd : (s.waitlist.map (fun e => e.id)).Nodup)
    (hfind : s.appointments.find? (fun x => x.id == aid) = some a)
    (hs : a.status = AStatus.scheduled) :
    (cancel_appointment s aid reason now).2.waitlist =
      s.waitlist.map (fun e =>
        if e.id ∈ ((find_matches s.waitlist a.date a.provider).take 3).map
            (fun x => x.id)
        then offerUpd now e else e) ∧
    (∀ e, e ∈ find_matches s.waitlist a.date a.provider ↔
      e ∈ s.waitlist ∧ e.status = WStatus.waiting ∧
      (e.provider = none ∨ e.provider = some a.provider) ∧
      (e.preferred_dates = [] ∨ a.date ∈ e.preferred_dates)) := by
  constructor
  · simp only [cancel_appointment, hfind]
    rw [if_neg (by simp [hs])]
    exact offer_ids_eq_map _ s.waitlist now hnd
  · intro e
    unfold find_matches
    rw [List.mem_filter, decide_eq_true_eq]
    unfold MatchCond
    exact Iff.rfl

def sampleWl : List WaitlistEntry :=
  [ { id := "WA111111", patient_name := "P One", patient_dob := "1980-01-01",
      patient_phone := "+15550000001", provider := none,
      appointment_type := "Follow-Up", preferred_dates := [], notes := "",
      status := WStatus.waiting, added_at := 1, offered_at := none },
    { id := "WB222222", patient_name := "P Two", patient_dob := "1981-02-02",
      patient_phone := "+15550000002", provider := some "Dr. Smith",
      appointment_type := "New Patient", preferred_dates := [19724],
      notes := "", status := WStatus.waiting, added_at := 2,
      offered_at := none },
    { id := "WC333333", patient_name := "P Three",
      patient_dob := "1982-03-03", patient_phone := "+15550000003",
      provider := none, appointment_type := "Lab Review",
      preferred_dates := [19724, 19725], notes := "",
      status := WStatus.waiting, added_at := 3, offered_at := none },
    { id := "WD444444", patient_name := "P Four", patient_dob := "1983-04-04",
      patient_phone := "+15550000004", provider := none,
      appointment_type := "Telehealth", preferred_dates := [], notes := "",
      status := WStatus.waiting, added_at := 4, offered_at := none },
    { id := "WE555555", patient_name := "P Five", patient_dob := "1984-05-05",
      patient_phone := "+15550000005", provider := some "Dr. Patel",
      appointment_type := "Vaccination", preferred_dates := [], notes := "",
      status := WStatus.waiting, added_at := 5, offered_at := none } ]

def sampleSys : SysState :=
  { appointments := [sampleAppt], waitlist := sampleWl }

/-- Witness for C2 on a concrete state: four entries match the cancelled
(date, provider) and one does not; the first three matches in enrollment
order become offered with the cancellation time stamped, while the fourth
match and the non-match stay waiting. -/
theorem cancellation_offers_matches_witness :
    ((sampleSys.waitlist.map (fun e => e.id)).Nodup ∧
      sampleSys.appointments.find? (fun x => x.id == "A1B2C3D4")
        = some sampleAppt ∧
      sampleAppt.status = AStatus.scheduled) ∧
    (cancel_appointment sampleSys "A1B2C3D4" "" 5000).2.waitlist =
      sampleSys.waitlist.map (fun e =>
        if e.id ∈ ((find_matches sampleSys.waitlist sampleAppt.date
            sampleAppt.provider).take 3).map (fun x => x.id)
        then offerUpd 5000 e else e) ∧
    ((cancel_appointment sampleSys "A1B2C3D4" "" 5000).2.waitlist.map
        (fun e => (e.status, e.offered_at))) =
      [(WStatus.offered, some 5000), (WStatus.offered, some 5000),
       (WStatus.offered, some 5000), (WStatus.waiting, none),
       (WStatus.waiting, none)] := by
  refine ⟨⟨by decide, by decide, by decide⟩, ?_, by decide⟩
  exact (cancellation_offers_matches sampleSys "A1B2C3D4" "" 5000 sampleAppt
    (by decide) (by decide) (by decide)).1

/-! ## Claim C1: at most one scheduled appointment per slot -/

/-- No two scheduled appointments share a (date, provider, slot) triple. -/
def SlotOk (a b : Appointment) : Prop :=
  a.status = AStatus.scheduled → b.status = AStatus.scheduled →
    ¬(a.date = b.date ∧ a.provider = b.provider ∧ a.time = b.time)

/-- The ledger invariant: unique ids (the uuid assumption of the dict-keyed
store) and no double-booked slot. -/
def LedgerInv (st : List Appointment) : Prop :=
  (st.map (fun a => a.id)).Nodup ∧ st.Pairwise SlotOk

theorem countP_le_one_of_pairwise : ∀ (st : List Appointment),
    st.Pairwise SlotOk → ∀ (d : Nat) (p t : String),
    st.countP (fun a => decide (IsBookedSlot d p t a)) ≤ 1 := by
  intro st
  induction st with
  | nil => intro _ d p t; simp
  | cons a l ih =>
    intro h d p t
    rw [List.pairwise_cons] at h
    rw [List.countP_cons]
    by_cases ha : IsBookedSlot d p t a
    · have h0 : l.countP (fun x => decide (IsBookedSlot d p t x)) = 0 := by
        rw [List.countP_eq_zero]
        intro b hb hbd
        rw [decide_eq_true_eq] at hbd
        exact h.1 b hb ha.2.2.1 hbd.2.2.1
          ⟨ha.1.trans hbd.1.symm, ha.2.1.trans hbd.2.1.symm,
           ha.2.2.2.trans hbd.2.2.2.symm⟩
      rw [h0, if_pos (by simp [ha])]
    · rw [if_neg (by simp [ha])]
      simpa using ih h.2 d p t

theorem ledgerInv_schedule (st : List Appointment)
    (appt_id patient_name patient_dob patient_phone provider
      appointment_type : String) (date_n : Nat) (time_str notes : String)
    (is_new : Bool) (now : Nat) (h : LedgerInv st)
    (hfresh : ∀ a ∈ st, a.id ≠ appt_id) :
    LedgerInv (schedule_appointment st appt_id patient_name patient_dob
      patient_phone provider appointment_type date_n time_str notes is_new
      now).2 := by
  by_cases hb : slotBooked st date_n provider time_str = true
  · have heq : (schedule_appointment st appt_id patient_name patient_dob
        patient_phone provider appointment_type date_n time_str notes is_new
        now).2 = st := by
      simp [schedule_appointment, hb]
    rw [heq]; exact h
  · have heq : (schedule_appointment st appt_id patient_name patient_dob
        patient_phone provider appointment_type date_n time_str notes is_new
        now).2 = st ++
        [{ id := appt_id, patient_name := patient_name,
           patient_dob := patient_dob, patient_phone := patient_phone,
           provider := provider, appointment_type := appointment_type,
           date := date_n, time := time_str, notes := notes,
           is_new_patient := is_new, status := AStatus.scheduled,
           created_at := now }] := by
      simp [schedule_appointment, hb]
    have hfree : ∀ x ∈ st, ¬ IsBookedSlot date_n provider time_str x := by
      intro x hx hxb
      apply hb
      unfold slotBooked
      rw [List.any_eq_true]
      exact ⟨x, hx, decide_eq_true hxb⟩
    rw [heq]
    constructor
    · rw [List.map_append, List.nodup_append]
      refine ⟨h.1, by simp, ?_⟩
      intro i hi hj
      simp only [List.map_cons, List.map_nil, List.mem_singleton] at hj
      rw [List.mem_map] at hi
      obtain ⟨x, hx, hxi⟩ := hi
      rw [hj] at hxi
      exact hfresh x hx hxi
    · rw [List.pairwise_append]
      refine ⟨h.2, by simp, ?_⟩
      intro x hx b hbm
      rw [List.mem_singleton] at hbm
      subst hbm
      intro hxs hbs htrip
      apply hfree x hx
      exact ⟨htrip.1, htrip.2.1, hxs, htrip.2.2⟩

theorem reschedUpd_eq_of_ne {aid : String} {nd : Nat} {nt : String}
    {x : Appointment} (h : ¬ x.id = aid) : reschedUpd aid nd nt x = x := by
  unfold reschedUpd
  rw [if_neg h]

theorem reschedUpd_date_of_eq {aid : String} {nd : Nat} {nt : String}
    {x : Appointment} (h : x.id = aid) :
    (reschedUpd aid nd nt x).date = nd := by
  unfold reschedUpd
  rw [if_pos h]

theorem reschedUpd_time_of_eq {aid : String} {nd : Nat} {nt : String}
    {x : Appointment} (h : x.id = aid) :
    (reschedUpd aid nd nt x).time = nt := by
  unfold reschedUpd
  rw [if_pos h]

theorem reschedUpd_provider (aid : String) (nd : Nat) (nt : String)
    (x : Appointment) : (reschedUpd aid nd nt x).provider = x.provider := by
  unfold reschedUpd
  by_cases h : x.id = aid
  · rw [if_pos h]
  · rw [if_neg h]

theorem reschedUpd_status (aid : String) (nd : Nat) (nt : String)
    (x : Appointment) : (reschedUpd aid nd nt x).status = x.status := by
  unfold reschedUpd
  by_cases h : x.id = aid
  · rw [if_pos h]
  · rw [if_neg h]

theorem reschedUpd_id (aid : String) (nd : Nat) (nt : String)
    (x : Appointment) : (reschedUpd aid nd nt x).id = x.id := by
  unfold reschedUpd
  by_cases h : x.id = aid
  · rw [if_pos h]
  · rw [if_neg h]

theorem ledgerInv_reschedule (st : List Appointment) (aid : String)
    (nd : Nat) (nt : String) (h : LedgerInv st) :
    LedgerInv (reschedule_appointment st aid nd nt).2 := by
  cases hfind : st.find? (fun x => x.id == aid) with
  | none =>
    have heq : (reschedule_appointment st aid nd nt).2 = st := by
      simp [reschedule_appointment, hfind]
    rw [heq]; exact h
  | some appt =>
    by_cases hs : appt.status = AStatus.scheduled
    · by_cases hb : slotBooked st nd appt.provider nt = true
      · have heq : (reschedule_appointment st aid nd nt).2 = st := by
          simp [reschedule_appointment, hfind, hs, hb]
        rw [heq]; exact h
      · have heq : (reschedule_appointment st aid nd nt).2
            = st.map (reschedUpd aid nd nt) := by
          simp [reschedule_appointment, hfind, hs, hb]
        rw [heq]
        have hmem : appt ∈ st := List.mem_of_find?_eq_some hfind
        have hid : appt.id = aid := by
          have hpred := List.find?_some hfind
          rwa [beq_iff_eq] at hpred
        have hfree : ∀ x ∈ st, ¬ IsBookedSlot nd appt.provider nt x := by
          intro x hx hxb
          apply hb
          unfold slotBooked
          rw [List.any_eq_true]
          exact ⟨x, hx, decide_eq_true hxb⟩
        have hinj := List.inj_on_of_nodup_map h.1
        constructor
        · rw [List.map_map]
          have hfun : ((fun a : Appointment => a.id) ∘ reschedUpd aid nd nt)
              = fun a : Appointment => a.id := by
            funext x
            exact reschedUpd_id aid nd nt x
          rw [hfun]
          exact h.1
        · rw [List.pairwise_map]
          apply List.Pairwise.imp_of_mem ?_ h.2
          intro x y hx hy hR hxs hys htrip
          obtain ⟨ht1, ht2, ht3⟩ := htrip
          rw [reschedUpd_status] at hxs hys
          rw [reschedUpd_provider, reschedUpd_provider] at ht2
          by_cases hxid : x.id = aid <;> by_cases hyid : y.id = aid
          · have hxa : x = appt := hinj hx hmem (by rw [hxid, hid])
            have hya : y = appt := hinj hy hmem (by rw [hyid, hid])
            have hxy : x = y := by rw [hxa, hya]
            exact hR hxs hys ⟨by rw [hxy], by rw [hxy], by rw [hxy]⟩
          · have hxa : x = appt := hinj hx hmem (by rw [hxid, hid])
            rw [reschedUpd_date_of_eq hxid, reschedUpd_eq_of_ne hyid] at ht1
            rw [reschedUpd_time_of_eq hxid, reschedUpd_eq_of_ne hyid] at ht3
            exact hfree y hy ⟨ht1.symm, by rw [← ht2, hxa], hys, ht3.symm⟩
          · have hya : y = appt := hinj hy hmem (by rw [hyid, hid])
            rw [reschedUpd_eq_of_ne hxid, reschedUpd_date_of_eq hyid] at ht1
            rw [reschedUpd_eq_of_ne hxid, reschedUpd_time_of_eq hyid] at ht3
            exact hfree x hx ⟨ht1, by rw [ht2, hya], hxs, ht3⟩
          · rw [reschedUpd_eq_of_ne hxid] at ht1 ht3
            rw [reschedUpd_eq_of_ne hyid] at ht1 ht3
            exact hR hxs hys ⟨ht1, ht2, ht3⟩
    · have heq : (reschedule_appointment st aid nd nt).2 = st := by
        simp [reschedule_appointment, hfind, hs]
      rw [heq]; exact h

theorem cancelUpd_status (reason : String) (x : Appointment) :
    (cancelUpd reason x).status = AStatus.cancelled := rfl

theorem ledgerInv_cancel_map (st : List Appointment) (h : LedgerInv st)
    (aid reason : String) :
    LedgerInv (st.map (fun x => if x.id = aid then cancelUpd reason x
      else x)) := by
  constructor
  · rw [List.map_map]
    have hfun : ((fun a : Appointment => a.id) ∘
        (fun x => if x.id = aid then cancelUpd reason x else x))
        = fun a : Appointment => a.id := by
      funext x
      by_cases hx : x.id = aid <;> simp [hx, cancelUpd]
    rw [hfun]
    exact h.1
  · rw [List.pairwise_map]
    apply List.Pairwise.imp ?_ h.2
    intro x y hR hxs hys htrip
    by_cases hxid : x.id = aid
    · rw [if_pos hxid, cancelUpd_status] at hxs
      simp at hxs
    · rw [if_neg hxid] at hxs htrip
      by_cases hyid : y.id = aid
      · rw [if_pos hyid, cancelUpd_status] at hys
        simp at hys
      · rw [if_neg hyid] at hys htrip
        exact hR hxs hys htrip

theorem reachable_ledgerInv : ∀ {s : SysState}, Reachable s →
    LedgerInv s.appointments := by
  intro s h
  induction h with
  | init => exact ⟨List.nodup_nil, List.Pairwise.nil⟩
  | book _ _ _ _ _ _ _ _ _ _ _ _ hfresh ih =>
    exact ledgerInv_schedule _ _ _ _ _ _ _ _ _ _ _ _ ih hfresh
  | resched _ _ _ _ ih => exact ledgerInv_reschedule _ _ _ _ ih
  | cancel aid reason now _ ih =>
    rename_i s2 _
    cases hf : s2.appointments.find? (fun x => x.id == aid) with
    | none =>
      have heq : (cancel_appointment s2 aid reason now).2 = s2 := by
        simp [cancel_appointment, hf]
      rw [heq]; exact ih
    | some appt =>
      by_cases hc : appt.status = AStatus.cancelled
      · have heq : (cancel_appointment s2 aid reason now).2 = s2 := by
          simp [cancel_appointment, hf, hc]
        rw [heq]; exact ih
      · have heq : (cancel_appointment s2 aid reason now).2.appointments
            = s2.appointments.map
              (fun x => if x.id = aid then cancelUpd reason x else x) := by
          simp [cancel_appointment, hf, hc]
        rw [heq]
        exact ledgerInv_cancel_map _ ih aid reason
  | enroll _ _ _ _ _ _ _ _ _ _ _ ih => exact ih
  | offer _ _ _ ih => exact ih
  | bookEntry _ _ ih => exact ih
  | removeEntry _ _ ih => exact ih
  | sweep _ _ ih => exact ih

/-- Claim C1: in every reachable state of the engine, at most one
appointment with status scheduled references any given (date, provider,
slot) triple; book, reschedule and cancel preserve this, book and
reschedule re-checking the triple before mutating. -/
theorem scheduled_slot_at_most_one {s : SysState} (h : Reachable s)
    (d : Nat) (p t : String) :
    s.appointments.countP (fun a => decide (IsBookedSlot d p t a)) ≤ 1 :=
  countP_le_one_of_pairwise s.appointments (reachable_ledgerInv h).2 d p t

/-- Witness for C1 at the concrete reachable state obtained by one booking
from the empty state. -/
theorem scheduled_slot_at_most_one_witness :
    ({ appointments := (schedule_appointment [] "A1B2C3D4" "Jane Roe"
        "1980-04-02" "+15551234567" "Dr. Smith" "Follow-Up" 19724 "9:00 AM"
        "" false 1700000000).2,
       waitlist := [] } : SysState).appointments.countP
      (fun a => decide (IsBookedSlot 19724 "Dr. Smith" "9:00 AM" a)) ≤ 1 :=
  scheduled_slot_at_most_one
    (Reachable.book "A1B2C3D4" "Jane Roe" "1980-04-02" "+15551234567"
      "Dr. Smith" "Follow-Up" 19724 "9:00 AM" "" false 1700000000
      Reachable.init (by simp)) 19724 "Dr. Smith" "9:00 AM"

end Miltenberger







